import Mathlib

/-!
Shallow embedding of src/hangman.py: the round state machine, scoring rules
and hint policy of the terminal hangman game.  Words and player inputs are
modelled as lists of characters; the external hint-service call inside
generate_hint is represented by its result, an Except value.  The main game
loop of hangman() is modelled as a function of the round state and a finite
list of per-turn player inputs.
-/

namespace Hangman

/-- Fallback hint returned when the hint service call fails (hangman.py, line 114). -/
def fallbackHint : String := "This word has something to do with its definition."

/-- Embedding of generate_hint (hangman.py, lines 91-114).  The try block
strips the response text of the service; any exception is caught and the
fixed fallback string is returned. -/
def generate_hint (secretWord : String) (apiResult : Except String String) : String :=
  match secretWord, apiResult with
  | _, Except.ok text => text.trim
  | _, Except.error _ => fallbackHint

/-- Embedding of get_lives_for_difficulty (hangman.py, lines 116-128): a
dictionary lookup with default value 5. -/
def get_lives_for_difficulty (difficulty : String) : Nat :=
  if difficulty = "easy" then 7
  else if difficulty = "medium" then 5
  else if difficulty = "hard" then 3
  else if difficulty = "custom" then 6
  else 5

/-- The max_hints constant of hangman() (hangman.py, line 198). -/
def max_hints : Nat := 3

/-- Python str.isalpha(): true iff the string is nonempty and every
character is alphabetic. -/
def pyIsAlpha (s : List Char) : Bool := !s.isEmpty && s.all Char.isAlpha

/-- Python str.lower(), applied to every raw player input. -/
def lowerStr (s : List Char) : List Char := s.map Char.toLower

/-- Python str.startswith applied with the one-character prefix y
(hangman.py, line 252). -/
def startsWithY (s : List Char) : Bool :=
  match s with
  | [] => false
  | c :: _ => c == 'y'

/-- The mutable round state of hangman() (hangman.py, lines 185-198).
guessedLetters is a Python set consumed only through membership tests, so a
list of characters models it. -/
structure GameState where
  secretWord : List Char
  guessedWord : List Char
  guessedLetters : List Char
  lives : Nat
  maxLives : Nat
  score : Int
  last_hint_lives : Nat
  hints_used : Nat
deriving DecidableEq

/-- The state created at the start of a round (hangman.py, lines 185-198):
the pattern is all underscores, no letters guessed, score 100, lives from
the difficulty, and the hint bookkeeping at its starting values. -/
def initState (secretWord : List Char) (difficulty : String) : GameState :=
  let lives := get_lives_for_difficulty difficulty
  { secretWord := secretWord
  , guessedWord := List.replicate secretWord.length '_'
  , guessedLetters := []
  , lives := lives
  , maxLives := lives
  , score := 100
  , last_hint_lives := lives
  , hints_used := 0 }

/-- The hint-offer condition of hangman.py, line 242: at least two lives
lost since the last offer and fewer than max_hints hints used.  The Python
operands are unbounded integers, hence the cast to Int. -/
def hintOffered (st : GameState) : Bool :=
  decide ((st.last_hint_lives : Int) - (st.lives : Int) ≥ 2) && decide (st.hints_used < max_hints)

/-- The hint block of a turn (hangman.py, lines 240-259).  none models the
return statement on the exit sentinel; otherwise the updated state is
returned.  Accepting adds one to hints_used and subtracts 5 from the score;
in either case last_hint_lives is then reset to the current lives (the
lives field is untouched in between, so the reset is written into each
branch directly). -/
def hintPhase (st : GameState) (hint_choice : List Char) : Option GameState :=
  if hintOffered st then
    if hint_choice = ['0'] then none
    else if startsWithY hint_choice then
      some { st with hints_used := st.hints_used + 1
                   , score := st.score - 5
                   , last_hint_lives := st.lives }
    else some { st with last_hint_lives := st.lives }
  else some st

/-- Result of processing one player guess inside the loop body: exitGame is
the return on the sentinel, broke is the break after a correct full-word
guess, next reaches the next loop-condition check (fall-through of the
letter branches as well as every continue statement). -/
inductive TurnResult where
  | exitGame (st : GameState)
  | broke (st : GameState)
  | next (st : GameState)
deriving DecidableEq

/-- The state carried by a TurnResult. -/
def TurnResult.state : TurnResult → GameState
  | TurnResult.exitGame st => st
  | TurnResult.broke st => st
  | TurnResult.next st => st

/-- The pattern recomputation of hangman.py, line 300: a position shows its
letter iff that letter is in the guessed set or is the letter just guessed
(which has already been added to the set at this point). -/
def revealWord (secretWord guessedLetters : List Char) (guess : Char) : List Char :=
  secretWord.map (fun letter => if letter ∈ guessedLetters ∨ letter = guess then letter else '_')

/-- The single-letter branch of the loop body (hangman.py, lines 289-306):
duplicate letters fall through unchanged; a new letter is added to the set,
then either all its occurrences are revealed and the score rises by 10, or
a life is lost and the score drops by 10. -/
def letterGuess (st : GameState) (c : Char) : TurnResult :=
  if c ∈ st.guessedLetters then TurnResult.next st
  else if c ∈ st.secretWord then
    TurnResult.next { st with guessedLetters := c :: st.guessedLetters
                            , guessedWord := revealWord st.secretWord (c :: st.guessedLetters) c
                            , score := st.score + 10 }
  else
    TurnResult.next { st with guessedLetters := c :: st.guessedLetters
                            , lives := st.lives - 1
                            , score := st.score - 10 }

/-- The guess-processing part of the loop body (hangman.py, lines 262-306),
applied to the already lowercased input: exit sentinel, then the full-word
branch (input length equals the secret length and the input is alphabetic),
then the invalid-input branch, then the single-letter branch. -/
def guessPhase (st : GameState) (guess : List Char) : TurnResult :=
  if guess = ['0'] then TurnResult.exitGame st
  else if guess.length = st.secretWord.length ∧ pyIsAlpha guess = true then
    (if guess = st.secretWord then
      TurnResult.broke { st with guessedWord := st.secretWord, score := st.score + 50 }
    else
      TurnResult.next { st with lives := st.lives - 1, score := st.score - 10 })
  else if guess.length ≠ 1 ∨ pyIsAlpha guess = false then TurnResult.next st
  else
    match guess with
    | [c] => letterGuess st c
    | _ => TurnResult.next st

/-- The raw inputs a player supplies on one iteration of the main loop: the
answer to a hint offer (read only when an offer appears) and the guess. -/
structure TurnInput where
  hint_choice : List Char
  guess : List Char
deriving DecidableEq

/-- One iteration of the main loop body (hangman.py, lines 209-306): the
hint block, then the guess processing, each on the lowercased input. -/
def playTurn (st : GameState) (inp : TurnInput) : TurnResult :=
  match hintPhase st (lowerStr inp.hint_choice) with
  | none => TurnResult.exitGame st
  | some st1 => guessPhase st1 (lowerStr inp.guess)

/-- Result of a round: playing means the supplied input list ran out while
the loop condition still held. -/
inductive RoundStatus where
  | playing
  | won (score : Int)
  | lost (score : Int)
  | exited
deriving DecidableEq

/-- The conclusion block after the main loop (hangman.py, lines 308-321):
the win check comes first; on a loss the score is forced to 0. -/
def conclude (st : GameState) : RoundStatus × GameState :=
  if st.guessedWord = st.secretWord then (RoundStatus.won st.score, st)
  else (RoundStatus.lost 0, { st with score := 0 })

/-- The main loop of hangman() (line 208: while lives > 0 and guessedWord
!= secretWord) run on a finite list of turn inputs, followed by the
conclusion block.  The final state is returned alongside the status. -/
def runRound : GameState → List TurnInput → RoundStatus × GameState
  | st, [] =>
    if 0 < st.lives ∧ st.guessedWord ≠ st.secretWord then (RoundStatus.playing, st)
    else conclude st
  | st, inp :: rest =>
    if 0 < st.lives ∧ st.guessedWord ≠ st.secretWord then
      match playTurn st inp with
      | TurnResult.exitGame st1 => (RoundStatus.exited, st1)
      | TurnResult.broke st1 => conclude st1
      | TurnResult.next st1 => runRound st1 rest
    else conclude st

/-- The pattern invariant of the round state: the pattern has the length
of the secret word, and a position shows the true letter exactly when that
letter is among the guessed ones. -/
def patternInv (st : GameState) : Prop :=
  st.guessedWord.length = st.secretWord.length ∧
  ∀ i, (h : i < st.secretWord.length) →
    (st.guessedWord[i]? = st.secretWord[i]? ↔ st.secretWord[i] ∈ st.guessedLetters)

instance (st : GameState) : Decidable (patternInv st) := by
  unfold patternInv
  exact instDecidableAnd

/-- Position i of the pattern currently shows the true letter of the
secret word. -/
def revealedAt (st : GameState) (i : Nat) : Prop :=
  i < st.secretWord.length ∧ st.guessedWord[i]? = st.secretWord[i]?

instance (st : GameState) (i : Nat) : Decidable (revealedAt st i) := by
  unfold revealedAt
  exact instDecidableAnd

/-! Basic equations and case lemmas for the embedded operations. -/

theorem runRound_nil (st : GameState) :
    runRound st [] =
      if 0 < st.lives ∧ st.guessedWord ≠ st.secretWord then (RoundStatus.playing, st)
      else conclude st := rfl

theorem runRound_cons (st : GameState) (inp : TurnInput) (rest : List TurnInput) :
    runRound st (inp :: rest) =
      if 0 < st.lives ∧ st.guessedWord ≠ st.secretWord then
        match playTurn st inp with
        | TurnResult.exitGame st1 => (RoundStatus.exited, st1)
        | TurnResult.broke st1 => conclude st1
        | TurnResult.next st1 => runRound st1 rest
      else conclude st := rfl

theorem conclude_cases (st : GameState) :
    (st.guessedWord = st.secretWord ∧ conclude st = (RoundStatus.won st.score, st)) ∨
    (st.guessedWord ≠ st.secretWord ∧ conclude st = (RoundStatus.lost 0, { st with score := 0 })) := by
  unfold conclude
  split_ifs with h
  · exact Or.inl ⟨h, rfl⟩
  · exact Or.inr ⟨h, rfl⟩

theorem hintOffered_iff (st : GameState) :
    hintOffered st = true ↔
      ((st.last_hint_lives : Int) - (st.lives : Int) ≥ 2 ∧ st.hints_used < 3) := by
  unfold hintOffered max_hints
  simp

theorem hintPhase_some_eq (st : GameState) (ch : List Char) (st1 : GameState)
    (h : hintPhase st ch = some st1) :
    st1 = st ∨
    st1 = { st with last_hint_lives := st.lives } ∨
    (st.hints_used < 3 ∧
      st1 = { st with hints_used := st.hints_used + 1, score := st.score - 5,
                      last_hint_lives := st.lives }) := by
  unfold hintPhase at h
  split at h
  case isTrue hA =>
    split at h
    case isTrue hB => exact Option.noConfusion h
    case isFalse hB =>
      split at h
      case isTrue hC =>
        injection h with h
        exact Or.inr (Or.inr ⟨((hintOffered_iff st).mp hA).2, h.symm⟩)
      case isFalse hC =>
        injection h with h
        exact Or.inr (Or.inl h.symm)
  case isFalse hA =>
    injection h with h
    exact Or.inl h.symm

theorem hintPhase_none (st : GameState) (ch : List Char)
    (h : hintPhase st ch = none) : hintOffered st = true ∧ ch = ['0'] := by
  unfold hintPhase at h
  split at h
  case isTrue hA =>
    split at h
    case isTrue hB => exact ⟨hA, hB⟩
    case isFalse hB =>
      split at h
      case isTrue hC => exact Option.noConfusion h
      case isFalse hC => exact Option.noConfusion h
  case isFalse hA => exact Option.noConfusion h

theorem letterGuess_next (st : GameState) (c : Char) :
    ∃ st1, letterGuess st c = TurnResult.next st1 := by
  unfold letterGuess
  split_ifs with h1 h2
  · exact ⟨st, rfl⟩
  · exact ⟨_, rfl⟩
  · exact ⟨_, rfl⟩

theorem guessPhase_cases (st : GameState) (g : List Char) :
    guessPhase st g = TurnResult.exitGame st ∨
    (∃ st1, guessPhase st g = TurnResult.broke st1 ∧
       st1.guessedWord = st1.secretWord ∧ st1.secretWord = st.secretWord) ∨
    (∃ st1, guessPhase st g = TurnResult.next st1 ∧ st1.secretWord = st.secretWord) := by
  unfold guessPhase
  split_ifs with h0 h1 h2 h3
  · exact Or.inl rfl
  · exact Or.inr (Or.inl ⟨_, rfl, rfl, rfl⟩)
  · exact Or.inr (Or.inr ⟨_, rfl, rfl⟩)
  · exact Or.inr (Or.inr ⟨st, rfl, rfl⟩)
  · rcases g with _ | ⟨c, rest⟩
    · exact Or.inr (Or.inr ⟨st, rfl, rfl⟩)
    · rcases rest with _ | ⟨d, rest2⟩
      · obtain ⟨st1, he⟩ := letterGuess_next st c
        refine Or.inr (Or.inr ⟨st1, he, ?_⟩)
        unfold letterGuess at he
        split_ifs at he with hc1 hc2 <;> injection he with he <;> rw [← he]
      · exact Or.inr (Or.inr ⟨st, rfl, rfl⟩)

theorem playTurn_broke (st : GameState) (inp : TurnInput) (st1 : GameState)
    (h : playTurn st inp = TurnResult.broke st1) :
    st1.guessedWord = st1.secretWord ∧ st1.secretWord = st.secretWord := by
  unfold playTurn at h
  rcases hh : hintPhase st (lowerStr inp.hint_choice) with _ | st2 <;> rw [hh] at h
  · have h2 : TurnResult.exitGame st = TurnResult.broke st1 := h
    exact TurnResult.noConfusion h2
  · have h2 : guessPhase st2 (lowerStr inp.guess) = TurnResult.broke st1 := h
    rcases guessPhase_cases st2 (lowerStr inp.guess) with hc | ⟨st3, hc, hw, hs⟩ | ⟨st3, hc, _⟩ <;>
      rw [hc] at h2
    · exact TurnResult.noConfusion h2
    · injection h2 with h2
      subst h2
      rcases hintPhase_some_eq st _ st2 hh with h3 | h3 | ⟨_, h3⟩ <;> subst h3 <;>
        exact ⟨hw, hs⟩
    · exact TurnResult.noConfusion h2

theorem playTurn_next_secret (st : GameState) (inp : TurnInput) (st1 : GameState)
    (h : playTurn st inp = TurnResult.next st1) : st1.secretWord = st.secretWord := by
  unfold playTurn at h
  rcases hh : hintPhase st (lowerStr inp.hint_choice) with _ | st2 <;> rw [hh] at h
  · have h2 : TurnResult.exitGame st = TurnResult.next st1 := h
    exact TurnResult.noConfusion h2
  · have h2 : guessPhase st2 (lowerStr inp.guess) = TurnResult.next st1 := h
    rcases guessPhase_cases st2 (lowerStr inp.guess) with hc | ⟨st3, hc, hw, hs⟩ | ⟨st3, hc, hs⟩ <;>
      rw [hc] at h2
    · exact TurnResult.noConfusion h2
    · exact TurnResult.noConfusion h2
    · injection h2 with h2
      subst h2
      rcases hintPhase_some_eq st _ st2 hh with h3 | h3 | ⟨_, h3⟩ <;> subst h3 <;> exact hs

theorem pyIsAlpha_ne_zero (g : List Char) (h : pyIsAlpha g = true) : g ≠ ['0'] := by
  intro hg
  subst hg
  exact absurd h (by decide)

theorem guessPhase_correctWord (st : GameState) (g : List Char)
    (hlen : g.length = st.secretWord.length) (halpha : pyIsAlpha g = true)
    (heq : g = st.secretWord) :
    guessPhase st g =
      TurnResult.broke { st with guessedWord := st.secretWord, score := st.score + 50 } := by
  unfold guessPhase
  rw [if_neg (pyIsAlpha_ne_zero g halpha), if_pos ⟨hlen, halpha⟩, if_pos heq]

theorem guessPhase_wrongWord (st : GameState) (g : List Char)
    (hlen : g.length = st.secretWord.length) (halpha : pyIsAlpha g = true)
    (hne : g ≠ st.secretWord) :
    guessPhase st g =
      TurnResult.next { st with lives := st.lives - 1, score := st.score - 10 } := by
  unfold guessPhase
  rw [if_neg (pyIsAlpha_ne_zero g halpha), if_pos ⟨hlen, halpha⟩, if_neg hne]

/-- C8: for the difficulties easy, medium, hard and custom the starting
life count is 7, 5, 3 and 6 respectively, and any other difficulty value
yields 5. -/
theorem claim_C8 :
    get_lives_for_difficulty "easy" = 7 ∧
    get_lives_for_difficulty "medium" = 5 ∧
    get_lives_for_difficulty "hard" = 3 ∧
    get_lives_for_difficulty "custom" = 6 ∧
    ∀ d : String, d ≠ "easy" → d ≠ "medium" → d ≠ "hard" → d ≠ "custom" →
      get_lives_for_difficulty d = 5 := by
  refine ⟨rfl, rfl, rfl, rfl, ?_⟩
  intro d h1 h2 h3 h4
  unfold get_lives_for_difficulty
  rw [if_neg h1, if_neg h2, if_neg h3, if_neg h4]

theorem claim_C8_witness :
    ("expert" : String) ≠ "easy" ∧ get_lives_for_difficulty "expert" = 5 :=
  ⟨by decide, claim_C8.2.2.2.2 "expert" (by decide) (by decide) (by decide) (by decide)⟩

/-- C9: whenever the hint provider fails, generate_hint returns the fixed
fallback string instead of failing, and for any hint-prompt answer other
than the exit sentinel the hint block returns a state and the round goes
on. -/
theorem claim_C9 :
    (∀ (w err : String), generate_hint w (Except.error err) = fallbackHint) ∧
    (∀ (st : GameState) (choice : List Char), choice ≠ ['0'] →
      ∃ st1, hintPhase st choice = some st1) := by
  constructor
  · intro w err
    rfl
  · intro st choice hne
    by_cases hA : hintOffered st = true
    · by_cases hC : startsWithY choice = true
      · exact ⟨_, by unfold hintPhase; rw [if_pos hA, if_neg hne, if_pos hC]⟩
      · exact ⟨_, by unfold hintPhase; rw [if_pos hA, if_neg hne, if_neg hC]⟩
    · exact ⟨st, by unfold hintPhase; rw [if_neg hA]⟩

theorem claim_C9_witness :
    (['y'] : List Char) ≠ ['0'] ∧
    ∃ st1, hintPhase (initState ['c','a','t'] "hard") ['y'] = some st1 :=
  ⟨by decide, claim_C9.2 (initState ['c','a','t'] "hard") ['y'] (by decide)⟩

/-- C2: an input whose length equals the secret length and which is purely
alphabetic is treated as a full-word guess: if it equals the secret word
the whole pattern is revealed and the score rises by 50, and the round
ends in a win on that same turn; otherwise a life is lost and the score
drops by 10.  A correct full-word guess on the first turn of a round ends
it with score 150. -/
theorem claim_C2 :
    (∀ (st : GameState) (g : List Char),
        g.length = st.secretWord.length → pyIsAlpha g = true → g = st.secretWord →
        guessPhase st g =
          TurnResult.broke { st with guessedWord := st.secretWord, score := st.score + 50 }) ∧
    (∀ (st : GameState) (g : List Char),
        g.length = st.secretWord.length → pyIsAlpha g = true → g ≠ st.secretWord →
        guessPhase st g =
          TurnResult.next { st with lives := st.lives - 1, score := st.score - 10 }) ∧
    (∀ (st : GameState) (inp : TurnInput) (rest : List TurnInput) (st2 : GameState),
        0 < st.lives → st.guessedWord ≠ st.secretWord →
        playTurn st inp = TurnResult.broke st2 →
        runRound st (inp :: rest) = (RoundStatus.won st2.score, st2)) ∧
    (runRound (initState ['c','a','t'] "hard") [⟨['n'], ['C','A','T']⟩]).1 =
      RoundStatus.won 150 := by
  refine ⟨guessPhase_correctWord, guessPhase_wrongWord, ?_, by decide⟩
  intro st inp rest st2 hl hw hpt
  rw [runRound_cons, if_pos ⟨hl, hw⟩, hpt]
  rcases conclude_cases st2 with ⟨h1, h2⟩ | ⟨h1, h2⟩
  · exact h2
  · exact absurd (playTurn_broke st inp st2 hpt).1 h1

theorem claim_C2_witness :
    (['c','a','t'] : List Char).length =
        (initState ['c','a','t'] "hard").secretWord.length ∧
    pyIsAlpha ['c','a','t'] = true ∧
    guessPhase (initState ['c','a','t'] "hard") ['c','a','t'] =
      TurnResult.broke { initState ['c','a','t'] "hard" with
          guessedWord := (initState ['c','a','t'] "hard").secretWord,
          score := (initState ['c','a','t'] "hard").score + 50 } :=
  ⟨by decide, by decide,
    claim_C2.1 (initState ['c','a','t'] "hard") ['c','a','t']
      (by decide) (by decide) (by decide)⟩

/-- C10: a wrong full-word guess leaves the guessed-letters set untouched,
so repeating the identical wrong word on two successive turns costs one
life and 10 score points each time. -/
theorem claim_C10 (st : GameState) (g : List Char)
    (hlen : g.length = st.secretWord.length) (halpha : pyIsAlpha g = true)
    (hne : g ≠ st.secretWord) (hl : 2 ≤ st.lives) :
    ∃ st1 st2,
      guessPhase st g = TurnResult.next st1 ∧
      guessPhase st1 g = TurnResult.next st2 ∧
      st1.guessedLetters = st.guessedLetters ∧
      st2.guessedLetters = st.guessedLetters ∧
      st1.lives + 1 = st.lives ∧ st2.lives + 2 = st.lives ∧
      st1.score = st.score - 10 ∧ st2.score = st.score - 20 := by
  have h1 := guessPhase_wrongWord st g hlen halpha hne
  have h2 := guessPhase_wrongWord { st with lives := st.lives - 1, score := st.score - 10 }
    g hlen halpha hne
  exact ⟨_, _, h1, h2, rfl, rfl,
    (by omega : st.lives - 1 + 1 = st.lives),
    (by omega : st.lives - 1 - 1 + 2 = st.lives),
    rfl,
    (by omega : st.score - 10 - 10 = st.score - 20)⟩

theorem claim_C10_witness :
    (['d','o','g'] : List Char).length =
        (initState ['c','a','t'] "hard").secretWord.length ∧
    ∃ st1 st2,
      guessPhase (initState ['c','a','t'] "hard") ['d','o','g'] = TurnResult.next st1 ∧
      guessPhase st1 ['d','o','g'] = TurnResult.next st2 ∧
      st1.guessedLetters = (initState ['c','a','t'] "hard").guessedLetters ∧
      st2.guessedLetters = (initState ['c','a','t'] "hard").guessedLetters ∧
      st1.lives + 1 = (initState ['c','a','t'] "hard").lives ∧
      st2.lives + 2 = (initState ['c','a','t'] "hard").lives ∧
      st1.score = (initState ['c','a','t'] "hard").score - 10 ∧
      st2.score = (initState ['c','a','t'] "hard").score - 20 :=
  ⟨by decide,
    claim_C10 (initState ['c','a','t'] "hard") ['d','o','g']
      (by decide) (by decide) (by decide) (by decide)⟩

/-- C6: an input that is invalid under the classification (non-alphabetic,
or of a length that is neither 1 nor the secret length), or a duplicate of
an already guessed letter, leaves the round state exactly as it was; the
only processing besides falling through to the next prompt is the exit
sentinel, which also keeps the state unchanged. -/
theorem claim_C6 (st : GameState) (g : List Char)
    (h : (pyIsAlpha g = false ∨ (g.length ≠ 1 ∧ g.length ≠ st.secretWord.length)) ∨
         (∃ c, g = [c] ∧ c ∈ st.guessedLetters ∧ g.length ≠ st.secretWord.length)) :
    guessPhase st g = TurnResult.next st ∨ guessPhase st g = TurnResult.exitGame st := by
  unfold guessPhase
  split_ifs with h0 h1 h2 h3
  · exact Or.inr rfl
  · exfalso
    rcases h with (ha | ⟨hb, hc⟩) | ⟨c, rfl, hd, he⟩
    · rw [h1.2] at ha
      exact Bool.noConfusion ha
    · exact hc h1.1
    · exact he h1.1
  · exfalso
    rcases h with (ha | ⟨hb, hc⟩) | ⟨c, rfl, hd, he⟩
    · rw [h1.2] at ha
      exact Bool.noConfusion ha
    · exact hc h1.1
    · exact he h1.1
  · exact Or.inl rfl
  · push_neg at h3
    rcases h with (ha | ⟨hb, hc⟩) | ⟨c, rfl, hd, he⟩
    · exact absurd ha h3.2
    · exact absurd h3.1 hb
    · left
      show letterGuess st c = TurnResult.next st
      unfold letterGuess
      rw [if_pos hd]

theorem claim_C6_witness :
    ((pyIsAlpha ['x','y'] = false ∨
        (['x','y'].length ≠ 1 ∧
         ['x','y'].length ≠ (initState ['c','a','t'] "hard").secretWord.length)) ∨
      ∃ c, (['x','y'] : List Char) = [c] ∧
        c ∈ (initState ['c','a','t'] "hard").guessedLetters ∧
        ['x','y'].length ≠ (initState ['c','a','t'] "hard").secretWord.length) ∧
    (guessPhase (initState ['c','a','t'] "hard") ['x','y'] =
        TurnResult.next (initState ['c','a','t'] "hard") ∨
     guessPhase (initState ['c','a','t'] "hard") ['x','y'] =
        TurnResult.exitGame (initState ['c','a','t'] "hard")) :=
  ⟨Or.inl (Or.inr ⟨by decide, by decide⟩),
    claim_C6 (initState ['c','a','t'] "hard") ['x','y']
      (Or.inl (Or.inr ⟨by decide, by decide⟩))⟩

/-- C3 counterexample: with the one-letter secret word a, the letter a is
alphabetic, not yet guessed, and occurs in the secret word, yet the guess
is handled by the full-word branch: the score rises by 50 rather than by
10, and the letter is not recorded as guessed. -/
theorem claim_C3_counterexample :
    ('a' ∈ (initState ['a'] "custom").secretWord ∧
     'a'.isAlpha = true ∧
     'a' ∉ (initState ['a'] "custom").guessedLetters) ∧
    (guessPhase (initState ['a'] "custom") ['a']).state.score =
        (initState ['a'] "custom").score + 50 ∧
    (guessPhase (initState ['a'] "custom") ['a']).state.guessedLetters = [] ∧
    (initState ['a'] "custom").score + 50 ≠ (initState ['a'] "custom").score + 10 := by
  decide

/-- C3 amended: for every new single-letter guess (alphabetic, not
previously guessed) whose length differs from the secret length, so that
it is not taken by the full-word branch: if the letter occurs in the
secret word, every occurrence of it becomes revealed and the score rises
by exactly 10; otherwise exactly one life is lost and the score drops by
exactly 10. -/
theorem claim_C3 (st : GameState) (c : Char)
    (halpha : c.isAlpha = true) (hnew : c ∉ st.guessedLetters)
    (hlen : (1 : Nat) ≠ st.secretWord.length) (hl : 0 < st.lives) :
    (c ∈ st.secretWord →
      guessPhase st [c] = TurnResult.next
        { st with guessedLetters := c :: st.guessedLetters
                , guessedWord := revealWord st.secretWord (c :: st.guessedLetters) c
                , score := st.score + 10 } ∧
      (∀ i, (h : i < st.secretWord.length) → st.secretWord[i] = c →
        (revealWord st.secretWord (c :: st.guessedLetters) c)[i]? = some c)) ∧
    (c ∉ st.secretWord →
      guessPhase st [c] = TurnResult.next
        { st with guessedLetters := c :: st.guessedLetters
                , lives := st.lives - 1, score := st.score - 10 } ∧
      st.lives - 1 + 1 = st.lives) := by
  have hzero : ([c] : List Char) ≠ ['0'] := by
    intro hEq
    injection hEq with hc _
    subst hc
    exact absurd halpha (by decide)
  have haz : pyIsAlpha [c] = true := by simp [pyIsAlpha, halpha]
  have hg : guessPhase st [c] = letterGuess st c := by
    unfold guessPhase
    rw [if_neg hzero, if_neg (fun hB => hlen hB.1),
      if_neg (fun hC => hC.elim (fun hx => hx rfl)
        (fun hx => by rw [haz] at hx; exact Bool.noConfusion hx))]
  constructor
  · intro hc
    constructor
    · rw [hg]
      unfold letterGuess
      rw [if_neg hnew, if_pos hc]
    · intro i h hci
      unfold revealWord
      rw [List.getElem?_map, List.getElem?_eq_getElem h, Option.map_some', hci]
      simp
  · intro hc
    constructor
    · rw [hg]
      unfold letterGuess
      rw [if_neg hnew, if_neg hc]
    · omega

theorem claim_C3_witness :
    ('t'.isAlpha = true ∧ 't' ∉ (initState ['c','a','t'] "hard").guessedLetters ∧
      (1 : Nat) ≠ (initState ['c','a','t'] "hard").secretWord.length) ∧
    ('t' ∈ (initState ['c','a','t'] "hard").secretWord →
      guessPhase (initState ['c','a','t'] "hard") ['t'] = TurnResult.next
        { initState ['c','a','t'] "hard" with
            guessedLetters := 't' :: (initState ['c','a','t'] "hard").guessedLetters
          , guessedWord := revealWord (initState ['c','a','t'] "hard").secretWord
              ('t' :: (initState ['c','a','t'] "hard").guessedLetters) 't'
          , score := (initState ['c','a','t'] "hard").score + 10 } ∧
      (∀ i, (h : i < (initState ['c','a','t'] "hard").secretWord.length) →
        (initState ['c','a','t'] "hard").secretWord[i] = 't' →
        (revealWord (initState ['c','a','t'] "hard").secretWord
          ('t' :: (initState ['c','a','t'] "hard").guessedLetters) 't')[i]? = some 't')) :=
  ⟨⟨by decide, by decide, by decide⟩,
    (claim_C3 (initState ['c','a','t'] "hard") 't'
      (by decide) (by decide) (by decide) (by decide)).1⟩

theorem conclude_won_eq (st : GameState) (w : Int) (st1 : GameState)
    (h : conclude st = (RoundStatus.won w, st1)) :
    st1.guessedWord = st1.secretWord ∧ w = st1.score := by
  rcases conclude_cases st with ⟨hw, he⟩ | ⟨hw, he⟩ <;> rw [he] at h
  · injection h with h1 h2
    injection h1 with h1
    subst h2
    subst h1
    exact ⟨hw, rfl⟩
  · injection h with h1 h2
    exact RoundStatus.noConfusion h1

theorem conclude_lost_eq (st : GameState) (s : Int) (st1 : GameState)
    (h : conclude st = (RoundStatus.lost s, st1)) :
    s = 0 ∧ st1.score = 0 ∧ st1.lives = st.lives ∧
    st1.guessedWord = st.guessedWord ∧ st1.secretWord = st.secretWord ∧
    st.guessedWord ≠ st.secretWord := by
  rcases conclude_cases st with ⟨hw, he⟩ | ⟨hw, he⟩ <;> rw [he] at h
  · injection h with h1 h2
    exact RoundStatus.noConfusion h1
  · injection h with h1 h2
    injection h1 with h1
    subst h2
    subst h1
    exact ⟨rfl, rfl, rfl, rfl, rfl, hw⟩

theorem runRound_won_eq (inputs : List TurnInput) :
    ∀ (st : GameState) (w : Int) (st1 : GameState),
      runRound st inputs = (RoundStatus.won w, st1) →
      st1.guessedWord = st1.secretWord ∧ w = st1.score := by
  induction inputs with
  | nil =>
    intro st w st1 h
    rw [runRound_nil] at h
    split_ifs at h with hc
    · injection h with h1 h2
      exact RoundStatus.noConfusion h1
    · exact conclude_won_eq st w st1 h
  | cons inp rest ih =>
    intro st w st1 h
    rw [runRound_cons] at h
    split_ifs at h with hc
    · rcases hpt : playTurn st inp with st2 | st2 | st2 <;> rw [hpt] at h
      · have h2 : ((RoundStatus.exited, st2) : RoundStatus × GameState) =
            (RoundStatus.won w, st1) := h
        injection h2 with h1 h3
        exact RoundStatus.noConfusion h1
      · have h2 : conclude st2 = (RoundStatus.won w, st1) := h
        exact conclude_won_eq st2 w st1 h2
      · have h2 : runRound st2 rest = (RoundStatus.won w, st1) := h
        exact ih st2 w st1 h2
    · exact conclude_won_eq st w st1 h

theorem runRound_lost_eq (inputs : List TurnInput) :
    ∀ (st : GameState) (s : Int) (st1 : GameState),
      runRound st inputs = (RoundStatus.lost s, st1) →
      s = 0 ∧ st1.score = 0 ∧ st1.lives = 0 ∧ st1.guessedWord ≠ st1.secretWord := by
  induction inputs with
  | nil =>
    intro st s st1 h
    rw [runRound_nil] at h
    split_ifs at h with hc
    · injection h with h1 h2
      exact RoundStatus.noConfusion h1
    · obtain ⟨h1, h2, h3, h4, h5, h6⟩ := conclude_lost_eq st s st1 h
      have hlz : st.lives = 0 := by
        by_contra hnz
        exact hc ⟨Nat.pos_of_ne_zero hnz, h6⟩
      refine ⟨h1, h2, by rw [h3, hlz], by rw [h4, h5]; exact h6⟩
  | cons inp rest ih =>
    intro st s st1 h
    rw [runRound_cons] at h
    split_ifs at h with hc
    · rcases hpt : playTurn st inp with st2 | st2 | st2 <;> rw [hpt] at h
      · have h2 : ((RoundStatus.exited, st2) : RoundStatus × GameState) =
            (RoundStatus.lost s, st1) := h
        injection h2 with h1 h3
        exact RoundStatus.noConfusion h1
      · have h2 : conclude st2 = (RoundStatus.lost s, st1) := h
        obtain ⟨h1, h3, h4, h5, h6, h7⟩ := conclude_lost_eq st2 s st1 h2
        exact absurd (playTurn_broke st inp st2 hpt).1 h7
      · have h2 : runRound st2 rest = (RoundStatus.lost s, st1) := h
        exact ih st2 s st1 h2
    · obtain ⟨h1, h2, h3, h4, h5, h6⟩ := conclude_lost_eq st s st1 h
      have hlz : st.lives = 0 := by
        by_contra hnz
        exact hc ⟨Nat.pos_of_ne_zero hnz, h6⟩
      refine ⟨h1, h2, by rw [h3, hlz], by rw [h4, h5]; exact h6⟩

theorem runRound_win_first (inputs : List TurnInput) (st : GameState)
    (h : st.guessedWord = st.secretWord) :
    runRound st inputs = (RoundStatus.won st.score, st) := by
  have hc : ¬(0 < st.lives ∧ st.guessedWord ≠ st.secretWord) := fun hx => hx.2 h
  cases inputs with
  | nil =>
    rw [runRound_nil, if_neg hc]
    unfold conclude
    rw [if_pos h]
  | cons inp rest =>
    rw [runRound_cons, if_neg hc]
    unfold conclude
    rw [if_pos h]

/-- C1: a round that ends in a win has the revealed pattern equal to the
secret word; a round that ends in a loss has lives equal to 0 and the
pattern still different from the secret word; and the win condition is
checked first: whenever the pattern equals the secret word the round ends
in a win, whatever the lives value. -/
theorem claim_C1 (st : GameState) (inputs : List TurnInput) :
    (∀ (w : Int) (st1 : GameState),
        runRound st inputs = (RoundStatus.won w, st1) →
        st1.guessedWord = st1.secretWord) ∧
    (∀ (s : Int) (st1 : GameState),
        runRound st inputs = (RoundStatus.lost s, st1) →
        st1.lives = 0 ∧ st1.guessedWord ≠ st1.secretWord) ∧
    (st.guessedWord = st.secretWord →
        runRound st inputs = (RoundStatus.won st.score, st)) :=
  ⟨fun w st1 h => (runRound_won_eq inputs st w st1 h).1,
   fun s st1 h =>
     ⟨(runRound_lost_eq inputs st s st1 h).2.2.1,
      (runRound_lost_eq inputs st s st1 h).2.2.2⟩,
   fun h => runRound_win_first inputs st h⟩

theorem claim_C1_witness :
    runRound (initState ['c','a','t'] "hard") [⟨['n'], ['c','a','t']⟩] =
      (RoundStatus.won 150,
        (runRound (initState ['c','a','t'] "hard") [⟨['n'], ['c','a','t']⟩]).2) ∧
    ((runRound (initState ['c','a','t'] "hard") [⟨['n'], ['c','a','t']⟩]).2).guessedWord =
      ((runRound (initState ['c','a','t'] "hard") [⟨['n'], ['c','a','t']⟩]).2).secretWord :=
  ⟨by decide,
    (claim_C1 (initState ['c','a','t'] "hard") [⟨['n'], ['c','a','t']⟩]).1 150 _ (by decide)⟩

/-- C7: whenever a round ends in a loss, the reported final score is
exactly 0 (the final state's score is also forced to 0), regardless of
the accumulated arithmetic. -/
theorem claim_C7 (st : GameState) (inputs : List TurnInput) (s : Int) (st1 : GameState)
    (h : runRound st inputs = (RoundStatus.lost s, st1)) :
    s = 0 ∧ st1.score = 0 :=
  ⟨(runRound_lost_eq inputs st s st1 h).1, (runRound_lost_eq inputs st s st1 h).2.1⟩

theorem claim_C7_witness :
    (0 : Int) = 0 ∧
    ((runRound (initState ['c','a','t'] "hard")
        [⟨['n'], ['x']⟩, ⟨['n'], ['y']⟩, ⟨['n'], ['z']⟩]).2).score = 0 :=
  claim_C7 (initState ['c','a','t'] "hard")
    [⟨['n'], ['x']⟩, ⟨['n'], ['y']⟩, ⟨['n'], ['z']⟩] 0 _ (by decide)

theorem hintPhase_hints_le (st : GameState) (ch : List Char) (st1 : GameState)
    (h : hintPhase st ch = some st1) (hb : st.hints_used ≤ 3) : st1.hints_used ≤ 3 := by
  rcases hintPhase_some_eq st ch st1 h with h2 | h2 | ⟨hlt, h2⟩ <;> subst h2
  · exact hb
  · exact hb
  · exact hlt

theorem guessPhase_hints (st : GameState) (g : List Char) :
    ((guessPhase st g).state).hints_used = st.hints_used := by
  unfold guessPhase
  split_ifs with h0 h1 h2 h3
  · rfl
  · rfl
  · rfl
  · rfl
  · rcases g with _ | ⟨c, _ | ⟨d, r⟩⟩
    · rfl
    · show ((letterGuess st c).state).hints_used = st.hints_used
      unfold letterGuess
      split_ifs with hc1 hc2
      · rfl
      · rfl
      · rfl
    · rfl

theorem playTurn_hints_le (st : GameState) (inp : TurnInput)
    (hb : st.hints_used ≤ 3) : ((playTurn st inp).state).hints_used ≤ 3 := by
  unfold playTurn
  rcases hh : hintPhase st (lowerStr inp.hint_choice) with _ | st2
  · exact hb
  · show ((guessPhase st2 (lowerStr inp.guess)).state).hints_used ≤ 3
    rw [guessPhase_hints st2 (lowerStr inp.guess)]
    exact hintPhase_hints_le st _ st2 hh hb

theorem conclude_hints_le (st : GameState) (hb : st.hints_used ≤ 3) :
    (((conclude st).2)).hints_used ≤ 3 := by
  unfold conclude
  split_ifs with h
  · exact hb
  · exact hb

theorem runRound_hints_le (inputs : List TurnInput) :
    ∀ st : GameState, st.hints_used ≤ 3 → (((runRound st inputs).2)).hints_used ≤ 3 := by
  induction inputs with
  | nil =>
    intro st hb
    rw [runRound_nil]
    split_ifs with hc
    · exact hb
    · exact conclude_hints_le st hb
  | cons inp rest ih =>
    intro st hb
    rw [runRound_cons]
    split_ifs with hc
    · have hp := playTurn_hints_le st inp hb
      rcases hpt : playTurn st inp with st2 | st2 | st2 <;> rw [hpt] at hp
      · exact hp
      · exact conclude_hints_le st2 hp
      · exact ih st2 hp
    · exact conclude_hints_le st hb

/-- C5: a hint is offered exactly when at least two lives have been lost
since the last offer and fewer than 3 hints have been used; accepting adds
1 to hints_used and subtracts exactly 5 from the score; whether accepted
or declined, last_hint_lives is reset to the current lives; and hints_used
never exceeds 3 across a round. -/
theorem claim_C5 :
    (∀ st : GameState, hintOffered st = true ↔
        ((st.last_hint_lives : Int) - (st.lives : Int) ≥ 2 ∧ st.hints_used < 3)) ∧
    (∀ (st : GameState) (choice : List Char), hintOffered st = false →
        hintPhase st choice = some st) ∧
    (∀ (st : GameState) (choice : List Char),
        hintOffered st = true → choice ≠ ['0'] → startsWithY choice = true →
        hintPhase st choice = some { st with hints_used := st.hints_used + 1
                                           , score := st.score - 5
                                           , last_hint_lives := st.lives }) ∧
    (∀ (st : GameState) (choice : List Char),
        hintOffered st = true → choice ≠ ['0'] → startsWithY choice = false →
        hintPhase st choice = some { st with last_hint_lives := st.lives }) ∧
    (∀ (st : GameState) (inputs : List TurnInput), st.hints_used ≤ 3 →
        (((runRound st inputs).2)).hints_used ≤ 3) := by
  refine ⟨hintOffered_iff, ?_, ?_, ?_, fun st inputs hb => runRound_hints_le inputs st hb⟩
  · intro st choice hof
    unfold hintPhase
    rw [if_neg (by rw [hof]; exact Bool.noConfusion)]
  · intro st choice hof hne hy
    unfold hintPhase
    rw [if_pos hof, if_neg hne, if_pos hy]
  · intro st choice hof hne hy
    unfold hintPhase
    rw [if_pos hof, if_neg hne, if_neg (by rw [hy]; exact Bool.noConfusion)]

theorem claim_C5_witness :
    hintOffered { initState ['c','a','t'] "easy" with lives := 5 } = true ∧
    (['y','e','s'] : List Char) ≠ ['0'] ∧
    startsWithY ['y','e','s'] = true ∧
    hintPhase { initState ['c','a','t'] "easy" with lives := 5 } ['y','e','s'] =
      some { { initState ['c','a','t'] "easy" with lives := 5 } with
          hints_used := { initState ['c','a','t'] "easy" with lives := 5 }.hints_used + 1
        , score := { initState ['c','a','t'] "easy" with lives := 5 }.score - 5
        , last_hint_lives := { initState ['c','a','t'] "easy" with lives := 5 }.lives } :=
  ⟨by decide, by decide, by decide,
    claim_C5.2.2.1 { initState ['c','a','t'] "easy" with lives := 5 } ['y','e','s']
      (by decide) (by decide) (by decide)⟩

theorem secret_no_underscore {secret : List Char} (halpha : secret.all Char.isAlpha = true)
    {i : Nat} (h : i < secret.length) : secret[i] ≠ '_' := by
  intro hu
  have hmem := List.all_eq_true.mp halpha secret[i] (List.getElem_mem h)
  rw [hu] at hmem
  exact absurd hmem (by decide)

theorem patternInv_init (secret : List Char) (d : String)
    (halpha : secret.all Char.isAlpha = true) : patternInv (initState secret d) := by
  constructor
  · exact List.length_replicate secret.length '_'
  · intro i h
    have hlt : i < secret.length := h
    show (List.replicate secret.length '_')[i]? = secret[i]? ↔ secret[i] ∈ ([] : List Char)
    rw [List.getElem?_replicate, if_pos hlt, List.getElem?_eq_getElem hlt]
    constructor
    · intro hEq
      exfalso
      injection hEq with hEq
      exact secret_no_underscore halpha hlt hEq.symm
    · intro hmem
      exact absurd hmem (List.not_mem_nil _)

theorem letterGuess_inv (st : GameState) (c : Char) (st1 : GameState)
    (halpha : st.secretWord.all Char.isAlpha = true)
    (hinv : patternInv st) (h : letterGuess st c = TurnResult.next st1) :
    patternInv st1 ∧ st1.secretWord = st.secretWord ∧
    (∀ i, revealedAt st i → revealedAt st1 i) := by
  unfold letterGuess at h
  split_ifs at h with h1 h2 <;> injection h with h <;> subst h
  · exact ⟨hinv, rfl, fun i hr => hr⟩
  · refine ⟨⟨?_, ?_⟩, rfl, ?_⟩
    · show (revealWord st.secretWord (c :: st.guessedLetters) c).length = st.secretWord.length
      unfold revealWord
      exact List.length_map _ _
    · intro i h
      show (revealWord st.secretWord (c :: st.guessedLetters) c)[i]? = st.secretWord[i]? ↔
        st.secretWord[i] ∈ c :: st.guessedLetters
      unfold revealWord
      rw [List.getElem?_map, List.getElem?_eq_getElem h, Option.map_some']
      constructor
      · intro hEq
        injection hEq with hEq
        by_cases hmem : st.secretWord[i] ∈ c :: st.guessedLetters ∨ st.secretWord[i] = c
        · rcases hmem with hm | hm
          · exact hm
          · rw [hm]
            exact List.mem_cons_self c st.guessedLetters
        · rw [if_neg hmem] at hEq
          exact absurd hEq.symm (secret_no_underscore halpha h)
      · intro hmem
        rw [if_pos (Or.inl hmem)]
    · intro i hr
      obtain ⟨hlt, hEq⟩ := hr
      refine ⟨hlt, ?_⟩
      show (revealWord st.secretWord (c :: st.guessedLetters) c)[i]? = st.secretWord[i]?
      unfold revealWord
      rw [List.getElem?_map, List.getElem?_eq_getElem hlt, Option.map_some']
      have hmem : st.secretWord[i] ∈ st.guessedLetters := (hinv.2 i hlt).mp hEq
      rw [if_pos (Or.inl (List.mem_cons_of_mem c hmem))]
  · refine ⟨⟨hinv.1, ?_⟩, rfl, fun i hr => hr⟩
    intro i h
    show st.guessedWord[i]? = st.secretWord[i]? ↔ st.secretWord[i] ∈ c :: st.guessedLetters
    rw [hinv.2 i h]
    constructor
    · exact fun hm => List.mem_cons_of_mem c hm
    · intro hm
      rcases List.mem_cons.mp hm with hm | hm
      · exfalso
        apply h2
        rw [← hm]
        exact List.getElem_mem h
      · exact hm

theorem guessPhase_next_inv (st : GameState) (g : List Char) (st1 : GameState)
    (halpha : st.secretWord.all Char.isAlpha = true) (hinv : patternInv st)
    (h : guessPhase st g = TurnResult.next st1) :
    patternInv st1 ∧ st1.secretWord = st.secretWord ∧
    (∀ i, revealedAt st i → revealedAt st1 i) := by
  unfold guessPhase at h
  by_cases h0 : g = ['0']
  · rw [if_pos h0] at h
    exact TurnResult.noConfusion h
  rw [if_neg h0] at h
  by_cases h1 : g.length = st.secretWord.length ∧ pyIsAlpha g = true
  · rw [if_pos h1] at h
    by_cases h2 : g = st.secretWord
    · rw [if_pos h2] at h
      exact TurnResult.noConfusion h
    · rw [if_neg h2] at h
      injection h with h
      subst h
      exact ⟨hinv, rfl, fun i hr => hr⟩
  rw [if_neg h1] at h
  by_cases h3 : g.length ≠ 1 ∨ pyIsAlpha g = false
  · rw [if_pos h3] at h
    injection h with h
    subst h
    exact ⟨hinv, rfl, fun i hr => hr⟩
  · rw [if_neg h3] at h
    rcases g with _ | ⟨c, _ | ⟨d, r⟩⟩
    · exact absurd (Or.inl (by decide)) h3
    · exact letterGuess_inv st c st1 halpha hinv h
    · exact absurd (Or.inl (by rw [List.length_cons, List.length_cons]; omega)) h3

theorem playTurn_next_inv (st : GameState) (inp : TurnInput) (st1 : GameState)
    (halpha : st.secretWord.all Char.isAlpha = true) (hinv : patternInv st)
    (h : playTurn st inp = TurnResult.next st1) :
    patternInv st1 ∧ st1.secretWord = st.secretWord ∧
    (∀ i, revealedAt st i → revealedAt st1 i) := by
  unfold playTurn at h
  rcases hh : hintPhase st (lowerStr inp.hint_choice) with _ | st2 <;> rw [hh] at h
  · have h2 : TurnResult.exitGame st = TurnResult.next st1 := h
    exact TurnResult.noConfusion h2
  · have h2 : guessPhase st2 (lowerStr inp.guess) = TurnResult.next st1 := h
    rcases hintPhase_some_eq st _ st2 hh with h3 | h3 | ⟨_, h3⟩
    · rw [h3] at h2
      exact guessPhase_next_inv st _ st1 halpha hinv h2
    · subst h3
      obtain ⟨ha, hb, hc⟩ := guessPhase_next_inv { st with last_hint_lives := st.lives }
        (lowerStr inp.guess) st1 halpha hinv h2
      exact ⟨ha, hb, hc⟩
    · subst h3
      obtain ⟨ha, hb, hc⟩ := guessPhase_next_inv
        { st with hints_used := st.hints_used + 1, score := st.score - 5,
                  last_hint_lives := st.lives }
        (lowerStr inp.guess) st1 halpha hinv h2
      exact ⟨ha, hb, hc⟩

theorem guessPhase_exit_eq (st : GameState) (g : List Char) (st1 : GameState)
    (h : guessPhase st g = TurnResult.exitGame st1) : st1 = st := by
  rcases guessPhase_cases st g with hc | ⟨st2, hc, _, _⟩ | ⟨st2, hc, _⟩ <;> rw [hc] at h
  · injection h with h
    exact h.symm
  · exact TurnResult.noConfusion h
  · exact TurnResult.noConfusion h

theorem playTurn_exit_fields (st : GameState) (inp : TurnInput) (st1 : GameState)
    (h : playTurn st inp = TurnResult.exitGame st1) :
    st1.guessedWord = st.guessedWord ∧ st1.secretWord = st.secretWord := by
  unfold playTurn at h
  rcases hh : hintPhase st (lowerStr inp.hint_choice) with _ | st2 <;> rw [hh] at h
  · have h2 : TurnResult.exitGame st = TurnResult.exitGame st1 := h
    injection h2 with h2
    subst h2
    exact ⟨rfl, rfl⟩
  · have h2 : guessPhase st2 (lowerStr inp.guess) = TurnResult.exitGame st1 := h
    have h3 := guessPhase_exit_eq st2 _ st1 h2
    rcases hintPhase_some_eq st _ st2 hh with h4 | h4 | ⟨_, h4⟩ <;> rw [h3, h4] <;>
      exact ⟨rfl, rfl⟩

theorem conclude_pattern (st : GameState) :
    ((conclude st).2).guessedWord = st.guessedWord ∧
    ((conclude st).2).secretWord = st.secretWord := by
  unfold conclude
  split_ifs with h
  · exact ⟨rfl, rfl⟩
  · exact ⟨rfl, rfl⟩

theorem runRound_monotone (inputs : List TurnInput) :
    ∀ st : GameState, st.secretWord.all Char.isAlpha = true → patternInv st →
      ∀ i, revealedAt st i → revealedAt ((runRound st inputs).2) i := by
  induction inputs with
  | nil =>
    intro st halpha hinv i hr
    rw [runRound_nil]
    split_ifs with hc
    · exact hr
    · obtain ⟨hg, hs⟩ := conclude_pattern st
      exact ⟨by rw [hs]; exact hr.1, by rw [hg, hs]; exact hr.2⟩
  | cons inp rest ih =>
    intro st halpha hinv i hr
    rw [runRound_cons]
    split_ifs with hc
    · rcases hpt : playTurn st inp with st2 | st2 | st2
      · obtain ⟨hg, hs⟩ := playTurn_exit_fields st inp st2 hpt
        exact ⟨by rw [hs]; exact hr.1, by rw [hg, hs]; exact hr.2⟩
      · obtain ⟨hw, hs⟩ := playTurn_broke st inp st2 hpt
        obtain ⟨hg2, hs2⟩ := conclude_pattern st2
        refine ⟨?_, ?_⟩
        · show i < ((conclude st2).2).secretWord.length
          rw [hs2, hs]
          exact hr.1
        · show ((conclude st2).2).guessedWord[i]? = ((conclude st2).2).secretWord[i]?
          rw [hg2, hs2, hw]
      · obtain ⟨hinv2, hs2, hmono⟩ := playTurn_next_inv st inp st2 halpha hinv hpt
        exact ih st2 (by rw [hs2]; exact halpha) hinv2 i (hmono i hr)
    · obtain ⟨hg, hs⟩ := conclude_pattern st
      exact ⟨by rw [hs]; exact hr.1, by rw [hg, hs]; exact hr.2⟩

/-- C4: in a fresh round the pattern invariant holds: a position shows the
true letter iff that letter has been guessed (no letter at the start); the
invariant is preserved by every turn that continues the round, revealed
positions never become hidden again across any run of the round, and a
correct full-word guess reveals the whole pattern. -/
theorem claim_C4 :
    (∀ (secret : List Char) (d : String), secret.all Char.isAlpha = true →
        patternInv (initState secret d)) ∧
    (∀ (st : GameState) (inp : TurnInput) (st1 : GameState),
        st.secretWord.all Char.isAlpha = true → patternInv st →
        playTurn st inp = TurnResult.next st1 →
        patternInv st1 ∧ (∀ i, revealedAt st i → revealedAt st1 i)) ∧
    (∀ (st : GameState) (inp : TurnInput) (st1 : GameState),
        playTurn st inp = TurnResult.broke st1 →
        st1.guessedWord = st1.secretWord) ∧
    (∀ (st : GameState) (inputs : List TurnInput),
        st.secretWord.all Char.isAlpha = true → patternInv st →
        ∀ i, revealedAt st i → revealedAt ((runRound st inputs).2) i) :=
  ⟨patternInv_init,
   fun st inp st1 ha hi h =>
     ⟨(playTurn_next_inv st inp st1 ha hi h).1, (playTurn_next_inv st inp st1 ha hi h).2.2⟩,
   fun st inp st1 h => (playTurn_broke st inp st1 h).1,
   fun st inputs ha hi i hr => runRound_monotone inputs st ha hi i hr⟩

theorem claim_C4_witness :
    (['c','a','t'] : List Char).all Char.isAlpha = true ∧
    patternInv (initState ['c','a','t'] "hard") :=
  ⟨by decide, claim_C4.1 ['c','a','t'] "hard" (by decide)⟩

end Hangman
